import Mathlib

/-!
Verification development for the easylish `vector-api` service
(`apps/vector-api/app/{utils,main}.py` and
`apps/vector-api/app/services/{ingestion,embedding,random}.py`).

The Python code is shallowly embedded: pure functions become Lean
functions, fallible code returns `Except`/`Option`, and the external
collaborators (HTTP embedding backend, Qdrant client, `uuid` library,
the random module, the filesystem) are passed in as explicit function
arguments so each code path of the repository is represented.

Python's Unicode-dependent character predicates (`\w`, `\s`, `str.isdigit`,
the digits accepted by `int(...)`, `str.lower`) are runtime data of
CPython, not code of this repository; they are modelled as a record of
character classifiers `CharClasses`.  Theorems that depend on facts of
those tables take them as explicit hypotheses, and the concrete instance
`pyCC` implements the fragment of the tables that the concrete inputs
in this file touch (ASCII, the CJK block U+4E00..U+9FFF, U+00B2
SUPERSCRIPT TWO, which CPython's `str.isdigit` accepts but `int(...)`
rejects, and U+0130, whose `str.lower()` image is the two-character
sequence `'i'` + U+0307).
-/

namespace Easylish

/-- Model of CPython's character classification tables used by the code:
`isWord` is the class matched by `\w` (with `re.UNICODE`), `isSpace` the
class matched by `\s` / split by `str.split()` / stripped by `str.strip()`,
`isDigitChar` the per-character test of `str.isdigit`, `isDecimal` the
digits accepted by `int(...)` (Unicode `Nd`), `decVal` the numeric value
of a decimal digit, and `toLower` the expansion `str.lower()` gives each
character.  `toLower` is list-valued because full case mapping is
one-to-many: e.g. U+0130 (`'İ'`) lowers to the two characters
`'i'` followed by U+0307 COMBINING DOT ABOVE, and `str.lower()` of a
string is the concatenation of its characters' expansions. -/
structure CharClasses where
  isWord : Char → Bool
  isSpace : Char → Bool
  isDigitChar : Char → Bool
  isDecimal : Char → Bool
  decVal : Char → Nat
  toLower : Char → List Char

/-- Membership in the CJK Unified Ideographs block U+4E00..U+9FFF, the
range written `一-鿿` in `validate_text_quality`. -/
def inCJK (c : Char) : Bool := 0x4E00 ≤ c.toNat && c.toNat ≤ 0x9FFF

/-- ASCII lower-casing: the action of `str.lower()` on ASCII letters
(non-letters are fixed). -/
def asciiLower (c : Char) : Char :=
  if 'A' ≤ c && c ≤ 'Z' then Char.ofNat (c.toNat + 32) else c

/-- Concrete `CharClasses` instance: the fragment of CPython's tables
used by concrete inputs in this development.  ASCII alphanumerics,
underscore, the CJK block, SUPERSCRIPT TWO and LATIN CAPITAL LETTER I
WITH DOT ABOVE (`'İ'`, U+0130) are word characters; the six ASCII
whitespace characters are whitespace; `str.isdigit` accepts the ASCII
digits and SUPERSCRIPT TWO while `int(...)` accepts only the ASCII
digits.  `str.lower()` maps ASCII letters to their lower-case and fixes
the other characters of the fragment, except `'İ'`, whose special casing
(Unicode `SpecialCasing.txt`, reproduced by CPython) is the two-character
sequence `'i'` + U+0307 COMBINING DOT ABOVE — and U+0307 is neither a
word character nor whitespace. -/
def pyCC : CharClasses where
  isWord c := c.isAlphanum || c = '_' || inCJK c || c = '²' || c = 'İ'
  isSpace c := c = ' ' || c = '\t' || c = '\n' || c = '\r' ||
    c = '\x0b' || c = '\x0c'
  isDigitChar c := c.isDigit || c = '²'
  isDecimal c := c.isDigit
  decVal c := c.toNat - 48
  toLower c := if c = 'İ' then ['i', '\u0307'] else [asciiLower c]

/-! ## Python string primitives -/

/-- Python `s.isdigit()`: non-empty and every character is a digit
character (which includes characters such as SUPERSCRIPT TWO that are
not decimal digits). -/
def pyIsDigitStr (cc : CharClasses) (s : String) : Bool :=
  !s.data.isEmpty && s.data.all cc.isDigitChar

/-- Python `int(s)` on a bare digit string: succeeds exactly when `s` is
non-empty and all characters are decimal digits (Unicode `Nd`), otherwise
raises `ValueError` (modelled as `none`). -/
def pyInt (cc : CharClasses) (s : String) : Option Nat :=
  if !s.data.isEmpty && s.data.all cc.isDecimal then
    some (s.data.foldl (fun a c => 10 * a + cc.decVal c) 0)
  else none

/-- Python `str.strip()` on a character list: drop leading and trailing
whitespace. -/
def pyStripL (cc : CharClasses) (l : List Char) : List Char :=
  ((l.dropWhile cc.isSpace).reverse.dropWhile cc.isSpace).reverse

/-- Python `str.strip()`. -/
def pyStrip (cc : CharClasses) (s : String) : String :=
  ⟨pyStripL cc s.data⟩

/-- One character of `re.sub(r"[^\w\s]", " ", s)`: characters that are
neither word characters nor whitespace are replaced by a space. -/
def replNormChar (cc : CharClasses) (c : Char) : Char :=
  if cc.isWord c || cc.isSpace c then c else ' '

/-- One character of `re.sub(r"[^\w\s一-鿿]", " ", s)` as used by
`validate_text_quality`. -/
def replValChar (cc : CharClasses) (c : Char) : Char :=
  if cc.isWord c || cc.isSpace c || inCJK c then c else ' '

/-- `re.sub(r"\s+", " ", s)`: replace every maximal whitespace run by a
single space.  The flag records whether the previous character was
whitespace (in which case the current run's space has been emitted). -/
def collapseWsAux (cc : CharClasses) : Bool → List Char → List Char
  | _, [] => []
  | prev, c :: rest =>
    if cc.isSpace c then
      if prev then collapseWsAux cc true rest
      else ' ' :: collapseWsAux cc true rest
    else c :: collapseWsAux cc false rest

/-- `re.sub(r"\s+", " ", s)` on a character list. -/
def collapseWs (cc : CharClasses) (l : List Char) : List Char :=
  collapseWsAux cc false l

/-- Python `s.split()` (no separator): split on whitespace runs, never
producing empty tokens.  `acc` holds the current token reversed. -/
def pySplitWsAux (cc : CharClasses) : List Char → List Char → List (List Char)
  | [], acc => if acc.isEmpty then [] else [acc.reverse]
  | c :: rest, acc =>
    if cc.isSpace c then
      if acc.isEmpty then pySplitWsAux cc rest []
      else acc.reverse :: pySplitWsAux cc rest []
    else pySplitWsAux cc rest (c :: acc)

/-- Python `s.split()` on a character list. -/
def pySplitWs (cc : CharClasses) (l : List Char) : List (List Char) :=
  pySplitWsAux cc l []

/-- `utils.normalize_text` / `main._normalize_text`:
strip non-word non-space characters to spaces, collapse whitespace,
strip, lower-case.  The final `.lower()` concatenates each character's
(possibly multi-character) lower-case expansion. -/
def normalize_text (cc : CharClasses) (s : String) : String :=
  ⟨(pyStripL cc (collapseWs cc (s.data.map (replNormChar cc)))).flatMap cc.toLower⟩

/-- The token list produced by `validate_text_quality`'s cleaning chain
`re.sub(class) |> re.sub(\s+) |> strip |> split` followed by the
(no-op) filter of empty tokens. -/
def valWords (cc : CharClasses) (s : String) : List (List Char) :=
  (pySplitWs cc (pyStripL cc (collapseWs cc (s.data.map (replValChar cc))))).filter
    (fun w => 0 < w.length)

/-- The same token list computed with `normalize_text`'s character class
`[^\w\s]` in place of the validator's `[^\w\s一-鿿]`. -/
def normWords (cc : CharClasses) (s : String) : List (List Char) :=
  (pySplitWs cc (pyStripL cc (collapseWs cc (s.data.map (replNormChar cc))))).filter
    (fun w => 0 < w.length)

/-- `utils.validate_text_quality`: clean the target text (the normalized
text when non-empty, else the raw text), split into words, and compare the
word count with `min_words`.  Returns `(is_valid, word_count)`. -/
def validate_text_quality (cc : CharClasses) (text : String)
    (normalized_text : String) (min_words : Nat) : Bool × Nat :=
  let target := if normalized_text = "" then text else normalized_text
  let count := (valWords cc target).length
  (decide (min_words ≤ count), count)

/-- Python `s.split(sep, 1)` step: split off the part before the first
occurrence of `sep`; `none` when `sep` does not occur (in which case the
tuple unpacking in `parse_srt_time` raises `ValueError`). -/
def splitFirst (sep : Char) : List Char → Option (List Char × List Char)
  | [] => none
  | x :: xs =>
    if x = sep then some ([], xs)
    else (splitFirst sep xs).map (fun p => (x :: p.1, p.2))

/-- `utils.parse_srt_time` / `main._parse_srt_time`: parse `HH:MM:SS,mmm`
to milliseconds via `t.split(":", 2)` and `rest.split(",", 1)`; `none`
models the `ValueError` raised on malformed input.  The `int(...)` calls
are modelled on bare digit strings (the only shape reaching them from the
timing regular expression). -/
def parse_srt_time (cc : CharClasses) (t : String) : Option Nat := do
  let (hh, r1) ← splitFirst ':' t.data
  let (mm, rest) ← splitFirst ':' r1
  let (ss, ms) ← splitFirst ',' rest
  let h ← pyInt cc ⟨hh⟩
  let m ← pyInt cc ⟨mm⟩
  let s ← pyInt cc ⟨ss⟩
  let milli ← pyInt cc ⟨ms⟩
  return (h * 3600 + m * 60 + s) * 1000 + milli

/-- `utils.chunk_list` / `main._chunk`:
`[lst[i : i + n] for i in range(0, len(lst), n)]`.  The callers always pass
`n = max(1, batch) ≥ 1`; for `n = 0` (where Python's `range` raises) the
model returns `[]`. -/
def chunk_list (l : List α) (n : Nat) : List (List α) :=
  if l.isEmpty ∨ n = 0 then []
  else l.take n :: chunk_list (l.drop n) n
termination_by l.length
decreasing_by
  simp only [not_or] at *
  cases l with
  | nil => simp_all
  | cons a t =>
    simp only [List.length_drop, List.length_cons]
    omega

/-- `utils.format_text_for_embedding` / `main._fmt`: strip, then prepend
the E5 prefix for query/passage kinds. -/
def format_text_for_embedding (cc : CharClasses) (text : String)
    (kind : String) : String :=
  let t := pyStrip cc text
  if t = "" then t
  else if kind = "e5_query" then "query: " ++ t
  else if kind = "e5_passage" then "passage: " ++ t
  else t

/-! ## Point identity mapping (`utils.safe_point_id` / `main._safe_point_id`) -/

/-- A raw identifier reaching `safe_point_id`: a Python `int` or `str`. -/
inductive PyVal where
  | int (n : Int)
  | str (s : String)
deriving DecidableEq

/-- A Qdrant-compatible point id: unsigned integer or UUID string. -/
inductive PyKey where
  | intKey (n : Int)
  | strKey (s : String)
deriving DecidableEq

/-- Model of the external Python `uuid` library: `parse s` is
`str(uuid.UUID(s))` when `s` parses as a UUID (else `none`), and `uuid5 s`
is `str(uuid.uuid5(uuid.NAMESPACE_URL, s))`.  Both library functions are
deterministic. -/
structure UuidModel where
  parse : String → Option String
  uuid5 : String → String

/-- `utils.safe_point_id` / `main._safe_point_id`.  `freshUuid` is the
`str(uuid.uuid4())` value drawn if the last-resort `except` branch runs;
that branch is reached exactly when `int(s)` raises after `s.isdigit()`
succeeded (digit-like characters outside class `Nd`, such as `'²'`). -/
def safe_point_id (U : UuidModel) (cc : CharClasses) (raw : PyVal)
    (freshUuid : String) : PyKey :=
  match raw with
  | .int n => .intKey n
  | .str s =>
    if pyIsDigitStr cc s then
      match pyInt cc s with
      | some n => .intKey n
      | none => .strKey freshUuid
    else
      match U.parse s with
      | some u => .strKey u
      | none => .strKey (U.uuid5 ("easylish:" ++ s))

/-! ## SRT subtitle parsing (`services/ingestion.py`, duplicated in
`main._ingest_dir`) -/

/-- Match `\d{2}:\d{2}:\d{2},\d{3}` at the head of `l`; on success return
the twelve matched characters and the remainder. -/
def matchTimestamp (cc : CharClasses) : List Char → Option (List Char × List Char)
  | h1 :: h2 :: c1 :: m1 :: m2 :: c2 :: s1 :: s2 :: cm :: x1 :: x2 :: x3 :: rest =>
    if cc.isDecimal h1 && cc.isDecimal h2 && c1 = ':' &&
        cc.isDecimal m1 && cc.isDecimal m2 && c2 = ':' &&
        cc.isDecimal s1 && cc.isDecimal s2 && cm = ',' &&
        cc.isDecimal x1 && cc.isDecimal x2 && cc.isDecimal x3 then
      some ([h1, h2, c1, m1, m2, c2, s1, s2, cm, x1, x2, x3], rest)
    else none
  | _ => none

/-- Match `\s*-->\s*` at the head of `l` (greedy whitespace, then the
literal arrow, then whitespace); return the remainder. -/
def matchArrow (cc : CharClasses) (l : List Char) : Option (List Char) :=
  match l.dropWhile cc.isSpace with
  | '-' :: '-' :: '>' :: rest => some (rest.dropWhile cc.isSpace)
  | _ => none

/-- Match the full timing pattern
`(\d{2}:\d{2}:\d{2},\d{3})\s*-->\s*(\d{2}:\d{2}:\d{2},\d{3})` anchored at
the head of `l`; return the two captured timestamps. -/
def matchTimingAt (cc : CharClasses) (l : List Char) :
    Option (List Char × List Char) := do
  let (t1, r1) ← matchTimestamp cc l
  let r2 ← matchArrow cc r1
  let (t2, _) ← matchTimestamp cc r2
  return (t1, t2)

/-- `re.search` of the timing pattern: try the anchored match at each
successive start position, returning the first (leftmost) match. -/
def searchTiming (cc : CharClasses) : List Char → Option (List Char × List Char)
  | [] => none
  | c :: rest =>
    match matchTimingAt cc (c :: rest) with
    | some r => some r
    | none => searchTiming cc rest

/-- The stem of `os.path.splitext`: drop the extension beginning at the
last dot, provided some earlier character of the name is not a dot
(so names of dots only, like `.bashrc`-style leading dots, keep their
dots). -/
def splitextBase (s : String) : String :=
  let l := s.data
  if l.contains '.' then
    let i := l.length - 1 - l.reverse.indexOf '.'
    if (l.take i).any (fun c => c ≠ '.') then ⟨l.take i⟩ else s
  else s

/-- `IngestionService._parse_filename` (and the equivalent inline code of
`main._ingest_dir`): match `^(.*?)(?:_(\d+))?$` against the filename stem.
The optional group matches exactly when the stem ends in an underscore
followed by a non-empty run of decimal digits; the lazy first group makes
that run maximal.  `int(...)` on the captured digits always succeeds, so
the fold below is its value. -/
def parse_filename (cc : CharClasses) (filename : String) : String × Nat :=
  let base := splitextBase filename
  let l := base.data
  let digits := (l.reverse.takeWhile cc.isDecimal).reverse
  let pre := l.take (l.length - digits.length)
  if !digits.isEmpty && pre.getLast? = some '_' then
    (⟨pre.dropLast⟩, digits.foldl (fun a c => 10 * a + cc.decVal c) 0)
  else (base, 1)

/-- The SRT state machine's mode: seeking the sequence line, seeking the
timing line, or collecting text lines. -/
inductive SrtMode where
  | seq
  | time
  | text
deriving DecidableEq

/-- The mutable block state of `_parse_srt_content`: current mode plus the
`seq`, `start_time`, `end_time` and `text_lines` variables. -/
structure SrtState where
  mode : SrtMode
  seq : Option Nat
  start_time : Option Nat
  end_time : Option Nat
  text_lines : List String
deriving DecidableEq

/-- The initial parser state: seeking a sequence line with nothing
pending. -/
def initSrtState : SrtState :=
  ⟨.seq, none, none, none, []⟩

/-- One parsed subtitle entry together with its payload fields. -/
structure SubtitleEntry where
  id : String
  text : String
  normalized_text : String
  video_id : String
  episode : Nat
  sequence : Nat
  start_ms : Nat
  end_ms : Nat
deriving DecidableEq

/-- `flush_block`: if the sequence, start and end are all set and the
joined text is non-empty, emit an entry and reset the block variables;
otherwise leave the state untouched (the source returns early without
resetting). -/
def flushBlock (cc : CharClasses) (video_id : String) (episode : Nat)
    (st : SrtState) : List SubtitleEntry × SrtState :=
  match st.seq, st.start_time, st.end_time with
  | some sq, some s, some e =>
    let text := pyStrip cc (String.intercalate " " st.text_lines)
    if text = "" then ([], st)
    else
      let norm := normalize_text cc text
      ([{ id := video_id ++ "_" ++ toString episode ++ "_" ++ toString sq,
          text := text, normalized_text := norm, video_id := video_id,
          episode := episode, sequence := sq, start_ms := s, end_ms := e }],
       { st with seq := none, start_time := none, end_time := none,
                 text_lines := [] })
  | _, _, _ => ([], st)

/-- Process one (already stripped) line of the SRT state machine.  The
`Except` error models the `ValueError` that `int(line)` raises on a
digit-like line outside class `Nd` (which aborts the whole file). -/
def stepLine (cc : CharClasses) (video_id : String) (episode : Nat)
    (st : SrtState) (line : String) :
    Except String (List SubtitleEntry × SrtState) :=
  if line = "" then
    let (es, st1) := flushBlock cc video_id episode st
    .ok (es, { st1 with mode := .seq })
  else
    match st.mode with
    | .seq =>
      if pyIsDigitStr cc line then
        match pyInt cc line with
        | some n => .ok ([], { st with seq := some n, mode := .time })
        | none => .error "ValueError"
      else .ok ([], st)
    | .time =>
      match searchTiming cc line.data with
      | some (t1, t2) =>
        match parse_srt_time cc ⟨t1⟩, parse_srt_time cc ⟨t2⟩ with
        | some s, some e =>
          .ok ([], { st with start_time := some s, end_time := some e,
                             mode := .text })
        | _, _ => .error "ValueError"
      | none => .ok ([], st)
    | .text => .ok ([], { st with text_lines := st.text_lines ++ [line] })

/-- Run the state machine over a list of stripped lines, accumulating the
emitted entries and returning the final state. -/
def runLines (cc : CharClasses) (video_id : String) (episode : Nat) :
    List String → SrtState → Except String (List SubtitleEntry × SrtState)
  | [], st => .ok ([], st)
  | l :: ls, st =>
    match stepLine cc video_id episode st l with
    | .error e => .error e
    | .ok (e1, st1) =>
      match runLines cc video_id episode ls st1 with
      | .error e => .error e
      | .ok (e2, st2) => .ok (e1 ++ e2, st2)

/-- Run the machine over stripped lines with the implicit trailing blank
line (`for line in lines + [""]`), from the initial state, returning the
emitted entries. -/
def parseLines (cc : CharClasses) (video_id : String) (episode : Nat)
    (lines : List String) : Except String (List SubtitleEntry) :=
  (runLines cc video_id episode (lines ++ [""]) initSrtState).map (·.1)

/-- Python `str.splitlines` for newline-terminated text: split on `'\n'`,
without a trailing empty line when the text ends in a newline. -/
def splitNl : List Char → List (List Char)
  | [] => [[]]
  | c :: rest =>
    if c = '\n' then [] :: splitNl rest
    else
      match splitNl rest with
      | [] => [[c]]
      | h :: t => (c :: h) :: t

/-- `content.splitlines()` (for `\n`-separated content). -/
def pySplitlines (s : String) : List String :=
  let ps := (splitNl s.data).map (fun l => String.mk l)
  if ps.getLast? = some "" then ps.dropLast else ps

/-- `IngestionService._parse_srt_content`: strip each line of the content
and run the state machine with the implicit trailing blank line. -/
def parse_srt_content (cc : CharClasses) (content : String)
    (video_id : String) (episode : Nat) : Except String (List SubtitleEntry) :=
  parseLines cc video_id episode ((pySplitlines content).map (pyStrip cc))

/-! ## Embedding client (`services/embedding.py`, duplicated in
`main.tei_embed`)

Vector components are opaque to all code in this repository (they are
forwarded from the backend response to the vector store untouched), so the
model represents a float vector as `List Int`: only presence, emptiness
(Python truthiness) and list structure matter. -/

/-- One element of a list-shaped TEI response: a bare vector, a JSON
object with an optional `embedding` field, or something else (non-dict,
non-list). -/
inductive TeiItem where
  | vecI (v : List Int)
  | dictI (embedding : Option (List Int))
  | otherI
deriving DecidableEq

/-- A decoded TEI response body: a JSON list, a JSON object (with the
optional `embeddings`, `data` and `embedding` fields the parser probes,
a field being `none` when absent or not of the probed type), or any other
JSON value. -/
inductive TeiResponse where
  | listR (items : List TeiItem)
  | dictR (embeddings : Option (List (List Int))) (data : Option (List TeiItem))
      (embedding : Option (List Int))
  | otherR
deriving DecidableEq

/-- The distinguishable error kinds of `_embed_chunk`: connection error,
non-200 status, unparseable response shape, and per-batch count
mismatch. -/
inductive TeiErr where
  | connection
  | httpStatus
  | invalidFormat
  | countMismatch
deriving DecidableEq

/-- Result of one `POST /embed` call: connection failure, non-200 reply,
or a 200 reply with a decoded body. -/
inductive HttpResult where
  | connErr
  | badStatus
  | ok (data : TeiResponse)

/-- The list comprehension
`[d.get("embedding") for d in data if isinstance(d, dict) and d.get("embedding")]`:
keep only dict items whose `embedding` field is present and truthy
(a non-empty list), wrapping each extracted vector.  `extractKeep` is the
filter-and-extract step for one item. -/
def extractKeep : TeiItem → Option (List Int)
  | .dictI (some v) => if v.isEmpty then none else some v
  | _ => none

/-- The whole comprehension over a list of response items. -/
def extractObjEmbeddings (items : List TeiItem) : List TeiItem :=
  (items.filterMap extractKeep).map .vecI

/-- `EmbeddingService._parse_embedding_response` (and the inline
normalization in `main.tei_embed`): probe the response shapes in source
order; raise `Invalid TEI response format` when none applies.  When the
first element of a list is itself a list, the list is returned verbatim. -/
def parseEmbeddingResponse : TeiResponse → Except TeiErr (List TeiItem)
  | .listR items =>
    match items with
    | .vecI _ :: _ => .ok items
    | _ => .ok (extractObjEmbeddings items)
  | .dictR (some embs) _ _ => .ok (embs.map .vecI)
  | .dictR none (some dataItems) _ =>
    match dataItems with
    | .vecI _ :: _ => .ok dataItems
    | _ => .ok (extractObjEmbeddings dataItems)
  | .dictR none none (some emb) => .ok [.vecI emb]
  | .dictR none none none => .error .invalidFormat
  | .otherR => .error .invalidFormat

/-- `EmbeddingService._embed_chunk`: post the batch, map transport and
status failures to 502 errors, parse the body, and require exactly one
embedding per input text. -/
def embedChunk (post : List String → HttpResult) (texts : List String) :
    Except TeiErr (List TeiItem) :=
  match post texts with
  | .connErr => .error .connection
  | .badStatus => .error .httpStatus
  | .ok data =>
    match parseEmbeddingResponse data with
    | .error e => .error e
    | .ok embs =>
      if embs.length = texts.length then .ok embs
      else .error .countMismatch

/-- The sequential per-chunk loop of `embed_texts`: issue one request per
batch, concatenating results; the first failing batch aborts the call.
Returns the list of batches actually posted alongside the result. -/
def embedLoop (post : List String → HttpResult) :
    List (List String) → List (List String) × Except TeiErr (List TeiItem)
  | [] => ([], .ok [])
  | c :: cs =>
    match embedChunk post c with
    | .error e => ([c], .error e)
    | .ok embs =>
      let (calls, res) := embedLoop post cs
      (c :: calls,
       match res with
       | .error e => .error e
       | .ok rest => .ok (embs ++ rest))

/-- `EmbeddingService.embed_texts`: empty input returns empty output with
no network call; otherwise format every text, batch them by
`max(1, batch_size)`, and run the per-chunk loop. -/
def embed_texts (cc : CharClasses) (post : List String → HttpResult)
    (batchSize : Nat) (texts : List String) (text_format : String) :
    List (List String) × Except TeiErr (List TeiItem) :=
  if texts.isEmpty then ([], .ok [])
  else
    let formatted := texts.map (fun t => format_text_for_embedding cc t text_format)
    embedLoop post (chunk_list formatted (max 1 batchSize))

/-- A backend that echoes one vector per input text, as a bare list of
vectors, computing each vector from its text by `f`. -/
def echoPost (f : String → List Int) : List String → HttpResult :=
  fun chunk => .ok (.listR (chunk.map (fun t => .vecI (f t))))

/-! ## Ingestion job state (`main.JOB` / `IngestionService.job_status`) -/

/-- The process-wide job-status record
`{"running", "total", "upserted", "errors", "dir"}`. -/
structure Job where
  running : Bool
  total : Nat
  upserted : Nat
  errors : Nat
  dir : Option String
deriving DecidableEq

/-- The record before any job has started. -/
def initJob : Job :=
  ⟨false, 0, 0, 0, none⟩

/-- Outcome of processing one `.srt` file: the number of points upserted,
or an exception (`Except.error`), which the per-file `try/except` turns
into an `errors` increment. -/
def ingestLoop (perFile : String → Except Unit Nat) (files : List String)
    (job : Job) : Job :=
  files.foldl
    (fun j f =>
      match perFile f with
      | .ok n => { j with upserted := j.upserted + n }
      | .error _ => { j with errors := j.errors + 1 })
    job

/-- `main._ingest_dir`: reset the job record, list the directory, filter
`.srt` files, ensure the collection, process each file with per-file
error isolation, then set `running := false`.  `listing` models
`os.listdir(dir_path)` and `ensure` models `ensure_collection`; an
`Except.error` result is an exception, which — the body having no
`try/finally` — propagates with the job record left as it stands
(`Except.error` carries that final record). -/
def ingest_dir_main (listing : Except Unit (List String))
    (ensure : Except Unit Unit) (perFile : String → Except Unit Nat)
    (dir_path : String) : Except Job Job :=
  let j1 : Job := ⟨true, 0, 0, 0, some dir_path⟩
  match listing with
  | .error _ => .error j1
  | .ok files =>
    let srt := files.filter (fun f => f.endsWith ".srt")
    let j2 := { j1 with total := srt.length }
    match ensure with
    | .error _ => .error j2
    | .ok _ =>
      let j3 := ingestLoop perFile srt j2
      .ok { j3 with running := false }

/-- `IngestionService.ingest_directory`: same pipeline, but the whole body
after the status reset sits in a `try/finally` that sets
`running := false`, so the final record has `running = false` whether the
body completed (`raised = false`) or raised (`raised = true`). -/
def ingest_directory (listing : Except Unit (List String))
    (ensure : Except Unit Unit) (perFile : String → Except Unit Nat)
    (dir_path : String) : Job × Bool :=
  let j1 : Job := ⟨true, 0, 0, 0, some dir_path⟩
  match listing with
  | .error _ => ({ j1 with running := false }, true)
  | .ok files =>
    let srt := files.filter (fun f => f.endsWith ".srt")
    let j2 := { j1 with total := srt.length }
    match ensure with
    | .error _ => ({ j2 with running := false }, true)
    | .ok _ =>
      let j3 := ingestLoop perFile srt j2
      ({ j3 with running := false }, false)

/-- The response body of `POST /ingest`: the rejection branch returns
`{"accepted": False, "running": True, "dir": JOB["dir"]}` and the
acceptance branch `{"accepted": True, "dir": dir_path}` (no `running`
field). -/
structure IngestResponse where
  accepted : Bool
  running : Option Bool
  dir : Option String
deriving DecidableEq

/-- The `POST /ingest` handler `main.ingest`: resolve the target directory
(Python `or` treats the empty string as absent), reject when a job is
already running, otherwise schedule `_ingest_dir` as a background task.
Returns the (unmodified) job record, the response, and the directory of
the scheduled task if one was scheduled. -/
def ingest (job : Job) (reqDir : Option String) (envDir : String) :
    Job × IngestResponse × Option String :=
  let dir_path :=
    match reqDir with
    | some d => if d = "" then envDir else d
    | none => envDir
  if job.running then
    (job, ⟨false, some true, job.dir⟩, none)
  else
    (job, ⟨true, none, some dir_path⟩, some dir_path)

/-! ## Random sampling engine (`services/random.py`) -/

/-- The payload fields `_validate_and_format_result` reads. -/
structure Payload where
  text : String
  normalized_text : String
deriving DecidableEq

/-- A stored point as returned by search or scroll. -/
structure Point where
  id : Nat
  payload : Option Payload
deriving DecidableEq

/-- The value returned for a random subtitle: entry id, the constant
score 1.0 (opaque here), and the payload. -/
structure RandomResult where
  entryId : String
  payload : Option Payload
deriving DecidableEq

/-- `RandomSubtitleService._validate_and_format_result`: read the payload
(defaulting absent fields to the empty string), validate text quality,
and format; `none` on rejection.  Its internal `try/except` returns
`None` on any exception. -/
def validateAndFormat (cc : CharClasses) (min_words : Nat) (point : Point) :
    Option RandomResult :=
  let payload := point.payload
  let text := (payload.map (·.text)).getD ""
  let normalized := (payload.map (·.normalized_text)).getD ""
  let (is_valid, _) := validate_text_quality cc text normalized min_words
  if is_valid then some ⟨toString point.id, payload⟩ else none

/-- The inner pick loop of `_random_vector_search`: up to
`min(10, len(results))` random indices are tried against the quality
validator.  `pick` is the random index oracle for this retry (`randint`
always returns an in-range index; `% length` keeps the model total). -/
def tryPicks (cc : CharClasses) (min_words : Nat) (results : List Point)
    (pick : Nat → Nat) : Nat → Option RandomResult
  | 0 => none
  | n + 1 =>
    match results.get? (pick n % results.length) with
    | none => none
    | some point =>
      match validateAndFormat cc min_words point with
      | some r => some r
      | none => tryPicks cc min_words results pick n

/-- The retry loop of `_random_vector_search`: for each retry, search with
a fresh random vector (`search i` is the backend result of retry `i`,
`Except.error` an exception caught by the loop's `try/except`); an empty
result list or an exception moves to the next retry. -/
def randomVectorSearch (cc : CharClasses) (min_words : Nat)
    (search : Nat → Except Unit (List Point)) (pick : Nat → Nat → Nat) :
    Nat → Nat → Option RandomResult
  | _, 0 => none
  | i, fuel + 1 =>
    match search i with
    | .error _ => randomVectorSearch cc min_words search pick (i + 1) fuel
    | .ok results =>
      if results.isEmpty then
        randomVectorSearch cc min_words search pick (i + 1) fuel
      else
        match tryPicks cc min_words results (pick i) (min 10 results.length) with
        | some r => some r
        | none => randomVectorSearch cc min_words search pick (i + 1) fuel

/-- `RandomSubtitleService._random_fallback_method`: fetch one scroll page
(`Except.error` an exception caught by the surrounding `try/except`,
yielding `None`); an empty page returns `None`, otherwise up to 10 random
choices are validated. -/
def randomFallback (cc : CharClasses) (min_words : Nat)
    (scroll : Except Unit (List Point × Option Nat)) (pick : Nat → Nat) :
    Option RandomResult :=
  match scroll with
  | .error _ => none
  | .ok (page, _) =>
    if page.isEmpty then none
    else tryPicks cc min_words page pick 10

/-- `RandomSubtitleService.get_random_subtitle`: phase 1 (probe by random
query vector, `maxRetries` retries) and, if it yields nothing, phase 2
(fallback bulk scan); `none` when both phases are exhausted. -/
def get_random_subtitle (cc : CharClasses) (min_words : Nat)
    (search : Nat → Except Unit (List Point)) (pick : Nat → Nat → Nat)
    (scroll : Except Unit (List Point × Option Nat)) (fpick : Nat → Nat)
    (maxRetries : Nat) : Option RandomResult :=
  match randomVectorSearch cc min_words search pick 0 maxRetries with
  | some r => some r
  | none => randomFallback cc min_words scroll fpick

/-! ## Claim theorems -/

/-- C1: the claim says the job-status record's `running` field is false
after the background task terminates, even on top-level failure such as
`os.listdir` raising.  This holds for `IngestionService.ingest_directory`
(whose `try/finally` resets the flag) but fails for `main._ingest_dir`,
the function actually scheduled by the `POST /ingest` route: when
`os.listdir(dir_path)` raises, the task terminates with the job record
left at `running = true` — there is no `try/finally`.  This theorem
evaluates both implementations at that failing input. -/
theorem claim_C1_running_stuck :
    ingest_dir_main (.error ()) (.ok ()) (fun _ => .ok 0) "/data/subtitles"
      = .error ⟨true, 0, 0, 0, some "/data/subtitles"⟩
    ∧ (∀ listing ensure perFile dir_path,
        ((ingest_directory listing ensure perFile dir_path).1).running = false) := by
  refine ⟨rfl, ?_⟩
  intro listing ensure perFile dir_path
  cases listing with
  | error e => rfl
  | ok files =>
    cases ensure with
    | error e => rfl
    | ok u => rfl

/-- C7: while a job is running, a second `POST /ingest` returns the
"already running" response, schedules no background task, and leaves the
job record (all fields, in particular `upserted` and `errors`)
untouched. -/
theorem claim_C7_already_running (job : Job) (reqDir : Option String)
    (envDir : String) (h : job.running = true) :
    ingest job reqDir envDir = (job, ⟨false, some true, job.dir⟩, none) := by
  unfold ingest
  rw [h]
  simp

/-- Witness for C7 at a concrete mid-job record. -/
theorem claim_C7_witness :
    (⟨true, 5, 3, 1, some "/d"⟩ : Job).running = true ∧
    ingest ⟨true, 5, 3, 1, some "/d"⟩ none "/data/subtitles"
      = (⟨true, 5, 3, 1, some "/d"⟩, ⟨false, some true, some "/d"⟩, none) :=
  ⟨rfl, claim_C7_already_running ⟨true, 5, 3, 1, some "/d"⟩ none "/data/subtitles" rfl⟩

/-- A concrete stand-in for the external `uuid` library, enough to
instantiate theorems whose interesting code path never consults it. -/
def uuidStub : UuidModel :=
  ⟨fun _ => none, fun s => s⟩

/-- C3 counterexample: `"²"` (U+00B2) consists entirely of digits in the
sense of the code's `s.isdigit()` test, yet `int("²")` raises, so
`safe_point_id` lands in the last-resort `uuid.uuid4()` branch: the result
is the fresh random UUID — not the parsed integer — and two invocations
(drawing different fresh UUIDs) disagree. -/
theorem claim_C3_counterexample :
    pyIsDigitStr pyCC "²" = true ∧
    safe_point_id uuidStub pyCC (.str "²") "u1" = .strKey "u1" ∧
    safe_point_id uuidStub pyCC (.str "²") "u2" = .strKey "u2" ∧
    PyKey.strKey "u1" ≠ PyKey.strKey "u2" := by
  refine ⟨by decide, rfl, rfl, by decide⟩

/-- C3 (amended): `safe_point_id` is deterministic on every input that
does not reach the random fallback — that is, whenever `int(s)` succeeds
on any digit-like string input — and on strings of decimal digits it
returns the parsed integer. -/
theorem claim_C3_amended (U : UuidModel) (cc : CharClasses) :
    (∀ raw r1 r2,
      (∀ s, raw = PyVal.str s → pyIsDigitStr cc s = true → pyInt cc s ≠ none) →
      safe_point_id U cc raw r1 = safe_point_id U cc raw r2) ∧
    (∀ s n r,
      (∀ c, cc.isDecimal c = true → cc.isDigitChar c = true) →
      pyInt cc s = some n →
      safe_point_id U cc (.str s) r = .intKey n) := by
  constructor
  · intro raw r1 r2 h
    cases raw with
    | int n => rfl
    | str s =>
      simp only [safe_point_id]
      cases hd : pyIsDigitStr cc s with
      | true =>
        simp only [hd, if_true]
        cases hi : pyInt cc s with
        | some n => rfl
        | none => exact absurd hi (h s rfl hd)
      | false => simp [hd]
  · intro s n r hsub hint
    have hs : (!s.data.isEmpty && s.data.all cc.isDecimal) = true := by
      by_contra hc
      simp only [pyInt, hc] at hint
      exact absurd hint (by simp)
    have hdig : pyIsDigitStr cc s = true := by
      simp only [pyIsDigitStr]
      simp only [Bool.and_eq_true, List.all_eq_true] at hs ⊢
      exact ⟨hs.1, fun c hc => hsub c (hs.2 c hc)⟩
    simp only [safe_point_id, hdig, hint, if_true]

/-- Witness for C3 (amended) at the decimal string `"123"`. -/
theorem claim_C3_amended_witness :
    safe_point_id uuidStub pyCC (.str "123") "u1"
      = safe_point_id uuidStub pyCC (.str "123") "u2" ∧
    safe_point_id uuidStub pyCC (.str "123") "u1" = .intKey 123 := by
  constructor
  · exact (claim_C3_amended uuidStub pyCC).1 (.str "123") "u1" "u2"
      (by intro s hs; cases hs; decide)
  · exact (claim_C3_amended uuidStub pyCC).2 "123" 123 "u1"
      (by intro c h; simp only [pyCC] at h ⊢; simp [h])
      (by decide)

/-- C9: against an empty collection — every random-vector search returns
the empty result list and the fallback scroll page is empty — the
random-sampling operation exhausts both phases and returns `none`; no
exception escapes (backend exceptions are modelled as `Except.error`
inputs, and `get_random_subtitle` is a total function into `Option`). -/
theorem claim_C9_empty_collection (cc : CharClasses) (min_words : Nat)
    (search : Nat → Except Unit (List Point)) (pick : Nat → Nat → Nat)
    (scroll : Except Unit (List Point × Option Nat)) (fpick : Nat → Nat)
    (maxRetries : Nat)
    (hs : ∀ i, search i = .ok [])
    (hsc : scroll = .ok ([], none)) :
    get_random_subtitle cc min_words search pick scroll fpick maxRetries = none := by
  have phase1 : ∀ fuel i,
      randomVectorSearch cc min_words search pick i fuel = none := by
    intro fuel
    induction fuel with
    | zero => intro i; rfl
    | succ m ih =>
      intro i
      unfold randomVectorSearch
      rw [hs i]
      simpa using ih (i + 1)
  unfold get_random_subtitle
  rw [phase1]
  unfold randomFallback
  rw [hsc]
  simp

/-- Witness for C9 with the service's default configuration values
(20 retries, 3 minimum words). -/
theorem claim_C9_witness :
    get_random_subtitle pyCC 3 (fun _ => .ok []) (fun _ _ => 0)
      (.ok ([], none)) (fun _ => 0) 20 = none :=
  claim_C9_empty_collection pyCC 3 _ _ _ _ 20 (fun _ => rfl) rfl

/-- Whether a TEI item is skipped by the object-list comprehension: not a
dict, or its `embedding` field absent or falsy. -/
def teiItemSkipped : TeiItem → Bool
  | .dictI (some v) => v.isEmpty
  | .dictI none => true
  | .vecI _ => true
  | .otherI => true

lemma extractObjEmbeddings_length (items : List TeiItem) :
    (extractObjEmbeddings items).length + items.countP teiItemSkipped
      = items.length := by
  simp only [extractObjEmbeddings, List.length_map]
  induction items with
  | nil => rfl
  | cons i t ih =>
    simp only [List.filterMap_cons, List.countP_cons, List.length_cons]
    cases i with
    | vecI v =>
      simp [extractKeep, teiItemSkipped]
      omega
    | otherI =>
      simp [extractKeep, teiItemSkipped]
      omega
    | dictI e =>
      cases e with
      | none =>
        simp [extractKeep, teiItemSkipped]
        omega
      | some v =>
        cases hv : v.isEmpty with
        | true =>
          simp [extractKeep, teiItemSkipped, hv]
          omega
        | false =>
          simp [extractKeep, teiItemSkipped, hv]
          omega

/-- C10: on a list-of-objects response (first element not a bare vector)
— or an object whose `data` field is such a list — the parser silently
skips every non-dict element and every absent/falsy `embedding` field,
returning exactly the present vectors without a malformed-response error;
the extracted count is the item count minus the skipped count, so a
response with at least one missing embedding out of `len(texts)` items
makes `_embed_chunk` fail with the count-mismatch error, not the
invalid-format one. -/
theorem claim_C10_skip_missing_embeddings (items : List TeiItem)
    (texts : List String)
    (hobj : ∀ v l, items ≠ TeiItem.vecI v :: l)
    (hlen : items.length = texts.length) :
    parseEmbeddingResponse (.listR items) = .ok (extractObjEmbeddings items) ∧
    parseEmbeddingResponse (.dictR none (some items) none)
      = .ok (extractObjEmbeddings items) ∧
    (extractObjEmbeddings items).length
      = items.length - items.countP teiItemSkipped ∧
    (0 < items.countP teiItemSkipped →
      embedChunk (fun _ => .ok (.listR items)) texts = .error .countMismatch) := by
  have hparse : parseEmbeddingResponse (.listR items)
      = .ok (extractObjEmbeddings items) := by
    cases items with
    | nil => rfl
    | cons i t =>
      cases i with
      | vecI v => exact absurd rfl (hobj v t)
      | dictI e => rfl
      | otherI => rfl
  have hparse2 : parseEmbeddingResponse (.dictR none (some items) none)
      = .ok (extractObjEmbeddings items) := by
    cases items with
    | nil => rfl
    | cons i t =>
      cases i with
      | vecI v => exact absurd rfl (hobj v t)
      | dictI e => rfl
      | otherI => rfl
  have hcount := extractObjEmbeddings_length items
  refine ⟨hparse, hparse2, by omega, ?_⟩
  intro hpos
  have hlt : (extractObjEmbeddings items).length < texts.length := by omega
  simp only [embedChunk, hparse]
  rw [if_neg (by omega)]

/-- Witness for C10: three inputs, a response of three objects of which
one lacks the `embedding` field and one is not a dict. -/
theorem claim_C10_witness :
    embedChunk
      (fun _ => .ok (.listR [.dictI (some [1]), .dictI none, .otherI]))
      ["a", "b", "c"] = .error .countMismatch := by
  have h := claim_C10_skip_missing_embeddings
    [.dictI (some [1]), .dictI none, .otherI] ["a", "b", "c"]
    (by intro v l hl; cases hl) rfl
  exact h.2.2.2 (by decide)

lemma chunk_list_flatten (l : List α) (n : Nat) :
    n ≠ 0 → (chunk_list l n).flatten = l := by
  induction l, n using chunk_list.induct with
  | case1 l n h =>
    intro hn
    rcases h with h | h
    · rw [chunk_list, if_pos (Or.inl h)]
      simpa using (List.isEmpty_iff.mp h).symm
    · exact absurd h hn
  | case2 l n h ih =>
    intro hn
    rw [chunk_list, if_neg h]
    simp only [List.flatten_cons, ih hn]
    exact List.take_append_drop n l

lemma embedChunk_echo (f : String → List Int) (c : List String) :
    embedChunk (echoPost f) c = .ok (c.map fun t => TeiItem.vecI (f t)) := by
  cases c with
  | nil => rfl
  | cons t ts =>
    simp only [embedChunk, echoPost, parseEmbeddingResponse, List.map_cons]
    rw [if_pos]
    simp

lemma embedLoop_ok (post : List String → HttpResult)
    (chunks : List (List String)) (g : List String → List TeiItem)
    (h : ∀ c ∈ chunks, embedChunk post c = .ok (g c)) :
    (embedLoop post chunks).2 = .ok ((chunks.map g).flatten) := by
  induction chunks with
  | nil => rfl
  | cons c cs ih =>
    rcases he : embedLoop post cs with ⟨calls, res⟩
    have h2 : res = .ok ((cs.map g).flatten) := by
      have := ih (fun x hx => h x (List.mem_cons_of_mem _ hx))
      rw [he] at this
      exact this
    simp only [embedLoop, h c (List.mem_cons_self _ _), he, h2, List.map_cons,
      List.flatten_cons]

lemma embedLoop_length (post : List String → HttpResult)
    (chunks : List (List String))
    (h : ∀ c ∈ chunks, ∃ o, embedChunk post c = .ok o ∧ o.length = c.length) :
    ∃ o, (embedLoop post chunks).2 = .ok o ∧ o.length = chunks.flatten.length := by
  induction chunks with
  | nil => exact ⟨[], rfl, rfl⟩
  | cons c cs ih =>
    obtain ⟨o1, ho1, hl1⟩ := h c (List.mem_cons_self _ _)
    obtain ⟨o2, ho2, hl2⟩ := ih (fun x hx => h x (List.mem_cons_of_mem _ hx))
    rcases he : embedLoop post cs with ⟨calls, res⟩
    rw [he] at ho2
    refine ⟨o1 ++ o2, ?_, ?_⟩
    · simp only [embedLoop, ho1, he, ho2]
    · simp [hl1, hl2]

/-- C5: with a backend that returns one vector per input in each batch,
`embed_texts` returns one vector per input overall, in input order (each
output position is the image of the corresponding formatted text); with
any backend satisfying the per-batch cardinality contract the output
length equals the input length; and the empty input yields the empty
output with no network call issued. -/
theorem claim_C5_embed_order_and_length (cc : CharClasses) :
    (∀ (f : String → List Int) texts kind bs,
      (embed_texts cc (echoPost f) bs texts kind).2 =
        .ok ((texts.map (fun t => format_text_for_embedding cc t kind)).map
              (fun t => TeiItem.vecI (f t)))) ∧
    (∀ post bs texts kind,
      (∀ c, ∃ o, embedChunk post c = .ok o ∧ o.length = c.length) →
      ∃ o, (embed_texts cc post bs texts kind).2 = .ok o ∧
        o.length = texts.length) ∧
    (∀ post bs kind, embed_texts cc post bs [] kind = ([], .ok [])) := by
  refine ⟨?_, ?_, fun post bs kind => rfl⟩
  · intro f texts kind bs
    cases ht : texts.isEmpty with
    | true =>
      rw [List.isEmpty_iff.mp ht]
      rfl
    | false =>
      simp only [embed_texts, ht, Bool.false_eq_true, if_false]
      rw [embedLoop_ok _ _ (List.map fun t => TeiItem.vecI (f t))
        (fun c _ => embedChunk_echo f c)]
      rw [← List.map_flatten, chunk_list_flatten _ _ (by omega)]
  · intro post bs texts kind h
    cases ht : texts.isEmpty with
    | true =>
      refine ⟨[], ?_, ?_⟩
      · simp [embed_texts, ht]
      · rw [List.isEmpty_iff.mp ht]
        rfl
    | false =>
      simp only [embed_texts, ht, Bool.false_eq_true, if_false]
      obtain ⟨o, ho, hl⟩ := embedLoop_length post
        (chunk_list (texts.map fun t => format_text_for_embedding cc t kind)
          (max 1 bs))
        (fun c _ => h c)
      refine ⟨o, ho, ?_⟩
      rw [hl, chunk_list_flatten _ _ (by omega), List.length_map]

/-- Witness for C5 at a concrete three-text call against an echoing
backend. -/
theorem claim_C5_witness :
    ∃ o, (embed_texts pyCC (echoPost (fun _ => [0])) 32 ["a", "b", "c"] "raw").2
      = .ok o ∧ o.length = 3 :=
  (claim_C5_embed_order_and_length pyCC).2.1 (echoPost (fun _ => [0])) 32
    ["a", "b", "c"] "raw"
    (fun c => ⟨c.map (fun t => TeiItem.vecI ([0] : List Int)),
      embedChunk_echo _ c, by simp⟩)

set_option maxRecDepth 4000 in
/-- C4: round-trip of the two-block subtitle file named `show_01.srt`:
filename parsing yields video id `show` and episode `1`, and content
parsing yields exactly two entries with ids `show_1_1` and `show_1_2`,
episode `1`, and millisecond timings `1000/2000` and `3500/4250`. -/
theorem claim_C4_round_trip :
    parse_filename pyCC "show_01.srt" = ("show", 1) ∧
    parse_srt_content pyCC
      "1\n00:00:01,000 --> 00:00:02,000\nHello world\n\n2\n00:00:03,500 --> 00:00:04,250\nBonjour"
      "show" 1
      = .ok
        [⟨"show_1_1", "Hello world", "hello world", "show", 1, 1, 1000, 2000⟩,
         ⟨"show_1_2", "Bonjour", "bonjour", "show", 1, 2, 3500, 4250⟩] := by
  exact ⟨rfl, rfl⟩

/-- C2: under the fact of CPython's Unicode tables that every CJK
ideograph in U+4E00..U+9FFF is a `\w` word character, the character class
stripped by `normalize_text` (`[^\w\s]`) and the one stripped by
`validate_text_quality` (`[^\w\s一-鿿]`) classify every character
identically, the two cleaning chains produce the same word tokens for
every text, and hence the validator's word count equals the token count
under the normalizer's class. -/
theorem claim_C2_char_classes_agree (cc : CharClasses)
    (hcjk : ∀ c, inCJK c = true → cc.isWord c = true) :
    (∀ c, (cc.isWord c || cc.isSpace c || inCJK c)
        = (cc.isWord c || cc.isSpace c)) ∧
    (∀ s, valWords cc s = normWords cc s) ∧
    (∀ s min_words,
      (validate_text_quality cc s "" min_words).2 = (normWords cc s).length) := by
  have ha : ∀ c, (cc.isWord c || cc.isSpace c || inCJK c)
      = (cc.isWord c || cc.isSpace c) := by
    intro c
    cases hw : cc.isWord c with
    | true => simp
    | false =>
      cases hc : inCJK c with
      | true => simp [hcjk c hc] at hw
      | false => simp [hw, hc]
  have hrepl : replValChar cc = replNormChar cc := by
    funext c
    simp only [replValChar, replNormChar, ha c]
  have hb : ∀ s, valWords cc s = normWords cc s := by
    intro s
    simp only [valWords, normWords, hrepl]
  refine ⟨ha, hb, fun s mw => ?_⟩
  show (valWords cc (if ("" : String) = "" then s else "")).length
      = (normWords cc s).length
  rw [if_pos rfl, hb s]

/-- Witness for C2: the concrete tables `pyCC` satisfy the CJK-is-word
hypothesis; instance of the classification equality at `'中'` and of the
token equality at a mixed Latin/CJK text. -/
theorem claim_C2_witness :
    (pyCC.isWord '中' || pyCC.isSpace '中' || inCJK '中')
      = (pyCC.isWord '中' || pyCC.isSpace '中') ∧
    valWords pyCC "Hello, 世界! ok" = normWords pyCC "Hello, 世界! ok" := by
  have hcjk : ∀ c, inCJK c = true → pyCC.isWord c = true := by
    intro c h
    simp only [pyCC, h]
    simp
  exact ⟨(claim_C2_char_classes_agree pyCC hcjk).1 '中',
    (claim_C2_char_classes_agree pyCC hcjk).2.1 "Hello, 世界! ok"⟩

/-! ### Proof infrastructure for normalize_text idempotence (C8) -/

/-- No two adjacent characters are both whitespace. -/
def noAdjSp (cc : CharClasses) (l : List Char) : Prop :=
  List.Chain' (fun a b => ¬(cc.isSpace a = true ∧ cc.isSpace b = true)) l

/-- Replace each whitespace character by a plain space, fixing the
rest. -/
def spFix (cc : CharClasses) (c : Char) : Char :=
  if cc.isSpace c then ' ' else c

lemma map_self (f : α → α) (l : List α) (h : ∀ c ∈ l, f c = c) :
    l.map f = l := by
  induction l with
  | nil => rfl
  | cons c t ih =>
    simp only [List.map_cons, h c (List.mem_cons_self _ _),
      ih (fun x hx => h x (List.mem_cons_of_mem _ hx))]

lemma collapseWsAux_invariants (cc : CharClasses) (l : List Char) :
    noAdjSp cc (collapseWsAux cc false l) ∧
    noAdjSp cc (collapseWsAux cc true l) ∧
    (∀ c ∈ (collapseWsAux cc true l).head?, cc.isSpace c = false) := by
  induction l with
  | nil => refine ⟨List.chain'_nil, List.chain'_nil, by simp [collapseWsAux]⟩
  | cons c t ih =>
    obtain ⟨ihf, iht, ihh⟩ := ih
    cases hsp : cc.isSpace c with
    | true =>
      simp only [collapseWsAux, hsp, if_true]
      refine ⟨?_, iht, ihh⟩
      exact List.chain'_cons'.mpr
        ⟨fun y hy => by simp [ihh y hy], iht⟩
    | false =>
      simp only [collapseWsAux, hsp, Bool.false_eq_true, if_false]
      have hchain : noAdjSp cc (c :: collapseWsAux cc false t) :=
        List.chain'_cons'.mpr ⟨fun y hy => by simp [hsp], ihf⟩
      exact ⟨hchain, hchain, by simp [hsp]⟩

lemma collapseWsAux_spacesBlank (cc : CharClasses) (l : List Char) :
    ∀ b, ∀ c ∈ collapseWsAux cc b l, cc.isSpace c = true → c = ' ' := by
  induction l with
  | nil => intro b c hc; simp [collapseWsAux] at hc
  | cons d t ih =>
    intro b c hc hsp
    cases hd : cc.isSpace d with
    | true =>
      simp only [collapseWsAux, hd, if_true] at hc
      cases b with
      | true => exact ih true c hc hsp
      | false =>
        rcases List.mem_cons.mp hc with h | h
        · exact h
        · exact ih true c h hsp
    | false =>
      simp only [collapseWsAux, hd, Bool.false_eq_true, if_false] at hc
      rcases List.mem_cons.mp hc with h | h
      · rw [h] at hsp; rw [hd] at hsp; cases hsp
      · exact ih false c h hsp

lemma collapseWsAux_mem (cc : CharClasses) (l : List Char) :
    ∀ b, ∀ c ∈ collapseWsAux cc b l, c = ' ' ∨ c ∈ l := by
  induction l with
  | nil => intro b c hc; simp [collapseWsAux] at hc
  | cons d t ih =>
    intro b c hc
    cases hd : cc.isSpace d with
    | true =>
      simp only [collapseWsAux, hd, if_true] at hc
      cases b with
      | true =>
        rcases ih true c hc with h | h
        · exact Or.inl h
        · exact Or.inr (List.mem_cons_of_mem _ h)
      | false =>
        rcases List.mem_cons.mp hc with h | h
        · exact Or.inl h
        · rcases ih true c h with h2 | h2
          · exact Or.inl h2
          · exact Or.inr (List.mem_cons_of_mem _ h2)
    | false =>
      simp only [collapseWsAux, hd, Bool.false_eq_true, if_false] at hc
      rcases List.mem_cons.mp hc with h | h
      · exact Or.inr (h ▸ List.mem_cons_self _ _)
      · rcases ih false c h with h2 | h2
        · exact Or.inl h2
        · exact Or.inr (List.mem_cons_of_mem _ h2)

lemma collapseWsAux_of_noAdj (cc : CharClasses) (l : List Char)
    (h : noAdjSp cc l) :
    collapseWsAux cc false l = l.map (spFix cc) ∧
    ((∀ c ∈ l.head?, cc.isSpace c = false) →
      collapseWsAux cc true l = l.map (spFix cc)) := by
  induction l with
  | nil => exact ⟨rfl, fun _ => rfl⟩
  | cons c t ih =>
    obtain ⟨hR, ht⟩ := List.chain'_cons'.mp h
    obtain ⟨ihf, iht⟩ := ih ht
    cases hsp : cc.isSpace c with
    | true =>
      have hth : ∀ y ∈ t.head?, cc.isSpace y = false := by
        intro y hy
        by_contra hyc
        exact hR y hy ⟨hsp, by revert hyc; cases cc.isSpace y <;> simp⟩
      constructor
      · simp [collapseWsAux, hsp, spFix, iht hth]
      · intro hh
        have := hh c (by simp)
        rw [hsp] at this
        cases this
    | false =>
      constructor
      · simp [collapseWsAux, hsp, spFix, ihf]
      · intro _
        simp [collapseWsAux, hsp, spFix, ihf]

lemma dropWhile_isSuffix (p : α → Bool) (l : List α) :
    ∃ t, t ++ l.dropWhile p = l := by
  induction l with
  | nil => exact ⟨[], rfl⟩
  | cons c t ih =>
    cases hp : p c with
    | true =>
      obtain ⟨u, hu⟩ := ih
      exact ⟨c :: u, by simp [List.dropWhile_cons, hp, hu]⟩
    | false => exact ⟨[], by simp [List.dropWhile_cons, hp]⟩

lemma headNotSpace_dropWhile (p : α → Bool) (l : List α) :
    ∀ c ∈ (l.dropWhile p).head?, p c = false := by
  induction l with
  | nil => simp
  | cons d t ih =>
    intro c hc
    cases hp : p d with
    | true =>
      rw [List.dropWhile_cons, if_pos hp] at hc
      exact ih c hc
    | false =>
      rw [List.dropWhile_cons, if_neg (by simp [hp])] at hc
      simp only [List.head?_cons, Option.mem_def, Option.some.injEq] at hc
      rw [hc] at hp
      exact hp

lemma dropWhile_eq_self_of_head (p : α → Bool) (l : List α)
    (h : ∀ c ∈ l.head?, p c = false) : l.dropWhile p = l := by
  cases l with
  | nil => rfl
  | cons c t =>
    rw [List.dropWhile_cons, if_neg]
    simp [h c (by simp)]

lemma pyStripL_eq_self (cc : CharClasses) (l : List Char)
    (hh : ∀ c ∈ l.head?, cc.isSpace c = false)
    (hl : ∀ c ∈ l.reverse.head?, cc.isSpace c = false) :
    pyStripL cc l = l := by
  unfold pyStripL
  rw [dropWhile_eq_self_of_head _ _ hh, dropWhile_eq_self_of_head _ _ hl,
    List.reverse_reverse]

lemma pyStripL_mem (cc : CharClasses) (l : List Char) :
    ∀ c ∈ pyStripL cc l, c ∈ l := by
  intro c hc
  unfold pyStripL at hc
  rw [List.mem_reverse] at hc
  have h1 := List.dropWhile_sublist (l := (l.dropWhile cc.isSpace).reverse)
    (p := cc.isSpace)
  have h2 : c ∈ (l.dropWhile cc.isSpace).reverse := h1.mem hc
  rw [List.mem_reverse] at h2
  exact (List.dropWhile_sublist (l := l) (p := cc.isSpace)).mem h2

lemma pyStripL_ends (cc : CharClasses) (l : List Char) :
    (∀ c ∈ (pyStripL cc l).head?, cc.isSpace c = false) ∧
    (∀ c ∈ (pyStripL cc l).reverse.head?, cc.isSpace c = false) := by
  constructor
  · intro c hc
    unfold pyStripL at hc
    obtain ⟨t, ht⟩ := dropWhile_isSuffix cc.isSpace
      (l.dropWhile cc.isSpace).reverse
    set u := ((l.dropWhile cc.isSpace).reverse).dropWhile cc.isSpace with hu
    cases hue : u.reverse with
    | nil => rw [hue] at hc; simp at hc
    | cons a w =>
      rw [hue] at hc
      simp only [List.head?_cons, Option.mem_def, Option.some.injEq] at hc
      have hfirst : (l.dropWhile cc.isSpace).head? = some a := by
        have hrepr : l.dropWhile cc.isSpace = u.reverse ++ t.reverse := by
          rw [← List.reverse_reverse (l.dropWhile cc.isSpace), ← ht]
          simp [List.reverse_append]
        rw [hrepr, hue]
        simp
      have hns := headNotSpace_dropWhile cc.isSpace l a hfirst
      rw [← hc]
      exact hns
  · intro c hc
    unfold pyStripL at hc
    rw [List.reverse_reverse] at hc
    exact headNotSpace_dropWhile cc.isSpace _ c hc

lemma noAdjSp_tail (cc : CharClasses) (c : Char) (l : List Char)
    (h : noAdjSp cc (c :: l)) : noAdjSp cc l :=
  (List.chain'_cons'.mp h).2

lemma noAdjSp_dropWhile (cc : CharClasses) (p : Char → Bool) (l : List Char)
    (h : noAdjSp cc l) : noAdjSp cc (l.dropWhile p) := by
  induction l with
  | nil => exact h
  | cons c t ih =>
    cases hp : p c with
    | true =>
      rw [List.dropWhile_cons, if_pos hp]
      exact ih (noAdjSp_tail cc c t h)
    | false =>
      rw [List.dropWhile_cons, if_neg (by simp [hp])]
      exact h

lemma noAdjSp_reverse (cc : CharClasses) (l : List Char)
    (h : noAdjSp cc l) : noAdjSp cc l.reverse := by
  unfold noAdjSp at h ⊢
  rw [List.chain'_reverse]
  exact h.imp (fun a b hab => by
    intro hk
    exact hab ⟨hk.2, hk.1⟩)

lemma noAdjSp_pyStripL (cc : CharClasses) (l : List Char)
    (h : noAdjSp cc l) : noAdjSp cc (pyStripL cc l) := by
  unfold pyStripL
  exact noAdjSp_reverse cc _
    (noAdjSp_dropWhile cc _ _ (noAdjSp_reverse cc _
      (noAdjSp_dropWhile cc _ _ h)))

lemma flatMap_self (f : Char → List Char) (l : List Char)
    (h : ∀ c ∈ l, f c = [c]) : l.flatMap f = l := by
  induction l with
  | nil => rfl
  | cons c t ih =>
    rw [List.flatMap_cons, h c (List.mem_cons_self _ _),
      ih (fun x hx => h x (List.mem_cons_of_mem _ hx))]
    rfl

lemma chain_of_all_nonspace (cc : CharClasses) (l : List Char)
    (h : ∀ c ∈ l, cc.isSpace c = false) : noAdjSp cc l := by
  induction l with
  | nil => exact List.chain'_nil
  | cons c t ih =>
    exact List.chain'_cons'.mpr
      ⟨fun y _ => by simp [h c (List.mem_cons_self _ _)],
       ih (fun x hx => h x (List.mem_cons_of_mem _ hx))⟩

lemma noAdjSp_flatMap (cc : CharClasses) (f : Char → List Char) :
    ∀ Y : List Char, noAdjSp cc Y →
    (∀ d ∈ Y, cc.isSpace d = true → f d = [d]) →
    (∀ d, cc.isSpace d = false → ∀ c ∈ f d, cc.isSpace c = false) →
    (∀ d, f d ≠ []) →
    noAdjSp cc (Y.flatMap f) := by
  intro Y
  induction Y with
  | nil => intro _ _ _ _; exact List.chain'_nil
  | cons d Yr ih =>
    intro hY hspim hnosp hne
    rw [List.flatMap_cons]
    apply List.chain'_append.mpr
    refine ⟨?_, ?_, ?_⟩
    · cases hsd : cc.isSpace d with
      | true =>
        rw [hspim d (List.mem_cons_self _ _) hsd]
        exact List.chain'_singleton d
      | false => exact chain_of_all_nonspace cc _ (hnosp d hsd)
    · exact ih (noAdjSp_tail cc d Yr hY)
        (fun x hx => hspim x (List.mem_cons_of_mem _ hx)) hnosp hne
    · intro x hx y hy
      cases hsd : cc.isSpace d with
      | false =>
        have hxm : x ∈ f d := List.mem_of_getLast?_eq_some hx
        simp [hnosp d hsd x hxm]
      | true =>
        cases Yr with
        | nil => simp at hy
        | cons d2 Yrr =>
          have hd2 : cc.isSpace d2 = false := by
            have hR := (List.chain'_cons'.mp hY).1 d2 (by simp)
            by_contra hc
            exact hR ⟨hsd, by revert hc; cases cc.isSpace d2 <;> simp⟩
          have hym : y ∈ f d2 := by
            rw [List.flatMap_cons] at hy
            cases hf : f d2 with
            | nil => exact absurd hf (hne d2)
            | cons a as =>
              rw [hf] at hy
              simp only [List.cons_append, List.head?_cons, Option.mem_def,
                Option.some.injEq] at hy
              rw [← hy]
              exact List.mem_cons_self _ _
          simp [hnosp d2 hd2 y hym]

lemma flatMap_head_nonspace (cc : CharClasses) (f : Char → List Char)
    (Y : List Char)
    (hh : ∀ d ∈ Y.head?, cc.isSpace d = false)
    (hnosp : ∀ d, cc.isSpace d = false → ∀ c ∈ f d, cc.isSpace c = false)
    (hne : ∀ d, f d ≠ []) :
    ∀ c ∈ (Y.flatMap f).head?, cc.isSpace c = false := by
  intro c hc
  cases Y with
  | nil => simp at hc
  | cons d Yr =>
    have hd := hh d (by simp)
    rw [List.flatMap_cons] at hc
    cases hf : f d with
    | nil => exact absurd hf (hne d)
    | cons a as =>
      rw [hf] at hc
      simp only [List.cons_append, List.head?_cons, Option.mem_def,
        Option.some.injEq] at hc
      rw [← hc]
      exact hnosp d hd a (by rw [hf]; exact List.mem_cons_self _ _)

lemma reverse_flatMap (f : α → List β) :
    ∀ l : List α, (l.flatMap f).reverse
      = l.reverse.flatMap (fun c => (f c).reverse) := by
  intro l
  induction l with
  | nil => rfl
  | cons d t ih =>
    rw [List.flatMap_cons, List.reverse_append, ih, List.reverse_cons,
      List.flatMap_append, List.flatMap_singleton]

/-- C8 counterexample: `normalize_text` is not idempotent in the real
program.  CPython's `str.lower()` maps `'İ'` (U+0130) to the
two-character sequence `"i"` + U+0307, and U+0307 COMBINING DOT ABOVE is
neither a word character nor whitespace, so the second pass strips it:
`normalize("İ") = "i" + U+0307` but `normalize(normalize("İ")) = "i"`. -/
theorem claim_C8_counterexample :
    normalize_text pyCC "İ" = "i̇" ∧
    normalize_text pyCC (normalize_text pyCC "İ") = "i" ∧
    normalize_text pyCC (normalize_text pyCC "İ") ≠ normalize_text pyCC "İ" := by
  refine ⟨by decide, by decide, by decide⟩

/-- C8 (amended): `normalize_text` is idempotent on every character table
whose lower-casing expands no character to the empty string, keeps word
characters word characters, produces no whitespace from non-whitespace,
fixes whitespace characters, and is idempotent (every character of a
lower-case expansion expands to itself).  CPython's tables violate the
word-preservation condition exactly at the special casings (e.g. `'İ'`,
whose expansion contains U+0307) and satisfy all of them on ASCII and
CJK text. -/
theorem claim_C8_amended (cc : CharClasses)
    (hword : ∀ c, cc.isWord c = true → ∀ d ∈ cc.toLower c, cc.isWord d = true)
    (hnosp : ∀ c, cc.isSpace c = false → ∀ d ∈ cc.toLower c, cc.isSpace d = false)
    (hspfix : ∀ c, cc.isSpace c = true → cc.toLower c = [c])
    (hfix : ∀ c, ∀ d ∈ cc.toLower c, cc.toLower d = [d])
    (hne : ∀ c, cc.toLower c ≠ [])
    (hspc : cc.isSpace ' ' = true) (s : String) :
    normalize_text cc (normalize_text cc s) = normalize_text cc s := by
  set z := collapseWs cc (s.data.map (replNormChar cc)) with hz
  set Y := pyStripL cc z with hY
  have hYchain : noAdjSp cc Y :=
    noAdjSp_pyStripL cc z (collapseWsAux_invariants cc _).1
  have hYblank : ∀ c ∈ Y, cc.isSpace c = true → c = ' ' := fun c hc =>
    collapseWsAux_spacesBlank cc _ false c (pyStripL_mem cc z c hc)
  have hYkept : ∀ c ∈ Y, cc.isWord c = true ∨ cc.isSpace c = true := by
    intro c hc
    have hcz : c ∈ z := pyStripL_mem cc z c hc
    rcases collapseWsAux_mem cc _ false c hcz with h | h
    · right
      rw [h]
      exact hspc
    · obtain ⟨d, _, hrepl⟩ := List.mem_map.mp h
      rw [← hrepl]
      unfold replNormChar
      cases hcond : (cc.isWord d || cc.isSpace d) with
      | true =>
        rw [if_pos rfl]
        exact Bool.or_eq_true_iff.mp hcond
      | false =>
        rw [if_neg (by simp)]
        exact Or.inr hspc
  have hYend := pyStripL_ends cc z
  set L := Y.flatMap cc.toLower with hL
  have hLmemY : ∀ c ∈ L, ∃ d ∈ Y, c ∈ cc.toLower d := by
    intro c hc
    rw [hL] at hc
    exact List.mem_flatMap.mp hc
  have hLkept : ∀ c ∈ L, cc.isWord c = true ∨ cc.isSpace c = true := by
    intro c hc
    obtain ⟨d, hd, hcd⟩ := hLmemY c hc
    cases hsd : cc.isSpace d with
    | true =>
      have hd' : d = ' ' := hYblank d hd hsd
      rw [hd', hspfix ' ' hspc] at hcd
      simp only [List.mem_singleton] at hcd
      rw [hcd]
      exact Or.inr hspc
    | false =>
      rcases hYkept d hd with hw | hsp
      · exact Or.inl (hword d hw c hcd)
      · rw [hsp] at hsd
        cases hsd
  have hLblank : ∀ c ∈ L, cc.isSpace c = true → c = ' ' := by
    intro c hc hsc
    obtain ⟨d, hd, hcd⟩ := hLmemY c hc
    cases hsd : cc.isSpace d with
    | true =>
      rw [hYblank d hd hsd, hspfix ' ' hspc] at hcd
      simpa using hcd
    | false =>
      rw [hnosp d hsd c hcd] at hsc
      cases hsc
  have hF3 : L.map (replNormChar cc) = L := by
    apply map_self
    intro c hc
    unfold replNormChar
    rcases hLkept c hc with hw | hsp
    · rw [if_pos (by simp [hw])]
    · rw [if_pos (by simp [hsp])]
  have hLchain : noAdjSp cc L := by
    rw [hL]
    exact noAdjSp_flatMap cc cc.toLower Y hYchain
      (fun d hd hsd => by
        rw [hYblank d hd hsd]
        exact hspfix ' ' hspc)
      hnosp hne
  have hF5 : collapseWs cc L = L.map (spFix cc) :=
    (collapseWsAux_of_noAdj cc L hLchain).1
  have hspFixId : L.map (spFix cc) = L := by
    apply map_self
    intro c hc
    unfold spFix
    cases hsc : cc.isSpace c with
    | true =>
      have hc' : c = ' ' := hLblank c hc hsc
      rw [hc']
      simp [hspc]
    | false => rw [if_neg (by simp [hsc])]
  have hLhead : ∀ c ∈ L.head?, cc.isSpace c = false := by
    rw [hL]
    exact flatMap_head_nonspace cc cc.toLower Y hYend.1 hnosp hne
  have hLlast : ∀ c ∈ L.reverse.head?, cc.isSpace c = false := by
    rw [hL, reverse_flatMap]
    exact flatMap_head_nonspace cc (fun c => (cc.toLower c).reverse)
      Y.reverse hYend.2
      (fun d hd c hcd => hnosp d hd c (List.mem_reverse.mp hcd))
      (fun d => by
        simp only [ne_eq, List.reverse_eq_nil_iff]
        exact hne d)
  have hF7 : pyStripL cc L = L := pyStripL_eq_self cc L hLhead hLlast
  have hF8 : L.flatMap cc.toLower = L := by
    apply flatMap_self
    intro c hc
    obtain ⟨d, _, hcd⟩ := hLmemY c hc
    exact hfix d c hcd
  calc normalize_text cc (normalize_text cc s)
      = ⟨(pyStripL cc (collapseWs cc (L.map (replNormChar cc)))).flatMap
          cc.toLower⟩ := rfl
    _ = ⟨(pyStripL cc L).flatMap cc.toLower⟩ := by rw [hF3, hF5, hspFixId]
    _ = ⟨L⟩ := by rw [hF7, hF8]
    _ = normalize_text cc s := rfl

lemma pyCC_word_asciiLower :
    ∀ c, pyCC.isWord c = true → pyCC.isWord (asciiLower c) = true := by
  have key : ∀ n, n < 91 → 65 ≤ n →
      pyCC.isWord (Char.ofNat (n + 32)) = true := by decide
  intro c hc
  unfold asciiLower
  by_cases h : ('A' ≤ c && c ≤ 'Z') = true
  · rw [if_pos h]
    have hn : 65 ≤ c.toNat ∧ c.toNat ≤ 90 := by
      simp only [Bool.and_eq_true, decide_eq_true_eq] at h
      exact ⟨h.1, h.2⟩
    exact key c.toNat (by omega) hn.1
  · rw [if_neg h]
    exact hc

lemma pyCC_space_asciiLower :
    ∀ c, pyCC.isSpace (asciiLower c) = pyCC.isSpace c := by
  have key1 : ∀ n, n < 91 → 65 ≤ n →
      pyCC.isSpace (Char.ofNat (n + 32)) = false := by decide
  have key2 : ∀ n, n < 91 → 65 ≤ n →
      pyCC.isSpace (Char.ofNat n) = false := by decide
  intro c
  unfold asciiLower
  by_cases h : ('A' ≤ c && c ≤ 'Z') = true
  · rw [if_pos h]
    have hn : 65 ≤ c.toNat ∧ c.toNat ≤ 90 := by
      simp only [Bool.and_eq_true, decide_eq_true_eq] at h
      exact ⟨h.1, h.2⟩
    have hr : pyCC.isSpace c = false := by
      rw [← Char.ofNat_toNat c]
      exact key2 c.toNat (by omega) hn.1
    rw [hr]
    exact key1 c.toNat (by omega) hn.1
  · rw [if_neg h]

lemma asciiLower_idem :
    ∀ c, asciiLower (asciiLower c) = asciiLower c := by
  have key : ∀ n, n < 91 → 65 ≤ n →
      asciiLower (Char.ofNat (n + 32)) = Char.ofNat (n + 32) := by decide
  intro c
  by_cases h : ('A' ≤ c && c ≤ 'Z') = true
  · have hstep : asciiLower c = Char.ofNat (c.toNat + 32) := by
      unfold asciiLower
      rw [if_pos h]
    have hn : 65 ≤ c.toNat ∧ c.toNat ≤ 90 := by
      simp only [Bool.and_eq_true, decide_eq_true_eq] at h
      exact ⟨h.1, h.2⟩
    rw [hstep]
    exact key c.toNat (by omega) hn.1
  · have hstep : asciiLower c = c := by
      unfold asciiLower
      rw [if_neg h]
    rw [hstep]
    exact hstep

lemma pyCC_space_asciiLower_fix :
    ∀ c, pyCC.isSpace c = true → asciiLower c = c := by
  intro c h
  simp only [pyCC, Bool.or_eq_true, decide_eq_true_eq] at h
  rcases h with ((((h | h) | h) | h) | h) | h <;> subst h <;> decide

/-- The sub-table of CPython's tables on which every lower-case expansion
is the single ASCII-lowered character: the restriction away from the
special casings (`'İ'` and its kin).  On texts over this fragment
`str.lower()` is a one-to-one per-character map. -/
def pyCCSimpleLower : CharClasses :=
  { pyCC with toLower := fun c => [asciiLower c] }

/-- Witness for the amended C8: idempotence at a concrete messy string,
with the hypotheses discharged for the one-to-one sub-table. -/
theorem claim_C8_amended_witness :
    normalize_text pyCCSimpleLower
        (normalize_text pyCCSimpleLower "  Hello,  WORLD!! x ")
      = normalize_text pyCCSimpleLower "  Hello,  WORLD!! x " :=
  claim_C8_amended pyCCSimpleLower
    (fun c hc d hd => by
      have hda : d = asciiLower c := by simpa [pyCCSimpleLower] using hd
      rw [hda]
      exact pyCC_word_asciiLower c hc)
    (fun c hc d hd => by
      have hda : d = asciiLower c := by simpa [pyCCSimpleLower] using hd
      rw [hda]
      show pyCC.isSpace (asciiLower c) = false
      rw [pyCC_space_asciiLower c]
      exact hc)
    (fun c hc => by
      show [asciiLower c] = [c]
      rw [pyCC_space_asciiLower_fix c hc])
    (fun c d hd => by
      have hda : d = asciiLower c := by simpa [pyCCSimpleLower] using hd
      show [asciiLower d] = [d]
      rw [hda, asciiLower_idem])
    (fun c => by simp [pyCCSimpleLower])
    (by decide)
    "  Hello,  WORLD!! x "

/-! ### Proof infrastructure for the discarded-block claim (C6) -/

lemma flushBlock_texts_nil (cc : CharClasses) (v : String) (e : Nat)
    (st : SrtState) (h : st.text_lines = []) :
    flushBlock cc v e st = ([], st) := by
  unfold flushBlock
  cases hs : st.seq with
  | none => rfl
  | some sq =>
    cases h1 : st.start_time with
    | none => rfl
    | some s1 =>
      cases h2 : st.end_time with
      | none => rfl
      | some e1 =>
        rw [h]
        rfl

lemma mapFst_nil_step (r : Except String (List SubtitleEntry × SrtState)) :
    ((match r with
      | .error err => .error err
      | .ok (e2, st2) => .ok ([] ++ e2, st2) :
        Except String (List SubtitleEntry × SrtState))).map (·.1)
      = r.map (·.1) := by
  cases r with
  | error err => rfl
  | ok p =>
    cases p
    simp

lemma runLines_skip_time (cc : CharClasses) (v : String) (e : Nat)
    (ts : List String) :
    ∀ (tail : List String) (st : SrtState), st.mode = .time →
    (∀ t ∈ ts, t ≠ "" ∧ searchTiming cc t.data = none) →
    runLines cc v e (ts ++ tail) st = runLines cc v e tail st := by
  induction ts with
  | nil => intro tail st _ _; rfl
  | cons x xs ih =>
    intro tail st hm hts
    obtain ⟨hx, hxt⟩ := hts x (List.mem_cons_self _ _)
    have hst : stepLine cc v e st x = .ok ([], st) := by
      unfold stepLine
      rw [if_neg hx, hm, hxt]
    have hrec := ih tail st hm (fun y hy => hts y (List.mem_cons_of_mem _ hy))
    simp only [List.cons_append, runLines, hst, List.append_eq, hrec]
    cases hr : runLines cc v e tail st with
    | error err => rfl
    | ok p =>
      cases p
      simp

lemma runLines_seqIrrel (cc : CharClasses) (v : String) (e : Nat)
    (ls : List String) :
    ∀ st st' : SrtState, st.mode = .seq → st'.mode = .seq →
    st.text_lines = [] → st'.text_lines = [] →
    st.start_time = st'.start_time → st.end_time = st'.end_time →
    (runLines cc v e ls st).map (·.1) = (runLines cc v e ls st').map (·.1) := by
  induction ls with
  | nil => intro st st' _ _ _ _ _ _; rfl
  | cons l t ih =>
    intro st st' hm hm' htx htx' hs he
    by_cases hl : l = ""
    · subst hl
      have hst : stepLine cc v e st "" = .ok ([], { st with mode := .seq }) := by
        unfold stepLine
        rw [if_pos rfl, flushBlock_texts_nil cc v e st htx]
      have hst' : stepLine cc v e st' "" = .ok ([], { st' with mode := .seq }) := by
        unfold stepLine
        rw [if_pos rfl, flushBlock_texts_nil cc v e st' htx']
      simp only [runLines, hst, hst']
      rw [mapFst_nil_step, mapFst_nil_step]
      exact ih _ _ rfl rfl htx htx' hs he
    · cases hdig : pyIsDigitStr cc l with
      | true =>
        cases hint : pyInt cc l with
        | some n =>
          have hst : stepLine cc v e st l
              = .ok ([], { st with seq := some n, mode := .time }) := by
            unfold stepLine
            rw [if_neg hl, hm, hdig, hint]
            rfl
          have hst' : stepLine cc v e st' l
              = .ok ([], { st' with seq := some n, mode := .time }) := by
            unfold stepLine
            rw [if_neg hl, hm', hdig, hint]
            rfl
          have heq : ({ st with seq := some n, mode := .time } : SrtState)
              = { st' with seq := some n, mode := .time } := by
            cases st
            cases st'
            simp_all
          simp only [runLines, hst, hst', heq]
        | none =>
          have hst : stepLine cc v e st l = .error "ValueError" := by
            unfold stepLine
            rw [if_neg hl, hm, hdig, hint]
            rfl
          have hst' : stepLine cc v e st' l = .error "ValueError" := by
            unfold stepLine
            rw [if_neg hl, hm', hdig, hint]
            rfl
          simp only [runLines, hst, hst']
      | false =>
        have hst : stepLine cc v e st l = .ok ([], st) := by
          unfold stepLine
          rw [if_neg hl, hm, hdig]
          rfl
        have hst' : stepLine cc v e st' l = .ok ([], st') := by
          unfold stepLine
          rw [if_neg hl, hm', hdig]
          rfl
        simp only [runLines, hst, hst']
        rw [mapFst_nil_step, mapFst_nil_step]
        exact ih _ _ hm hm' htx htx' hs he

/-- C6: a block consisting of a sequence line and any non-blank text
lines, none of which matches the timing pattern, followed by the blank
block terminator, is discarded entirely: parsing it before the rest of
the file produces exactly the entries of the rest parsed alone, so no
entry is emitted for the block and subsequent blocks are unaffected. -/
theorem claim_C6_missing_timing_discarded (cc : CharClasses) (v : String)
    (e : Nat) (d : String) (ts rest : List String) (n : Nat)
    (hdig : pyIsDigitStr cc d = true) (hd : pyInt cc d = some n)
    (hts : ∀ t ∈ ts, t ≠ "" ∧ searchTiming cc t.data = none) :
    parseLines cc v e (d :: (ts ++ ([""] ++ rest)))
      = parseLines cc v e rest := by
  have hdne : d ≠ "" := by
    intro hcon
    rw [hcon] at hdig
    cases hdig
  unfold parseLines
  have hshape : (d :: (ts ++ ([""] ++ rest))) ++ [""]
      = d :: (ts ++ ("" :: (rest ++ [""]))) := by
    simp
  rw [hshape]
  have hst1 : stepLine cc v e initSrtState d
      = .ok ([], { initSrtState with seq := some n, mode := .time }) := by
    unfold stepLine
    rw [if_neg hdne, hdig, hd]
    rfl
  have hst2 : stepLine cc v e
        ({ initSrtState with seq := some n, mode := .time }) ""
      = .ok ([], { initSrtState with seq := some n }) := by
    unfold stepLine
    rw [if_pos rfl, flushBlock_texts_nil cc v e _ rfl]
    rfl
  simp only [runLines, hst1]
  rw [runLines_skip_time cc v e ts _ _ rfl hts]
  simp only [runLines, hst2]
  rw [mapFst_nil_step, mapFst_nil_step]
  exact runLines_seqIrrel cc v e (rest ++ [""]) _ _ rfl rfl rfl rfl rfl rfl

/-- Witness for C6: a concrete block with sequence `3` and one text line
but no timing line, followed by a well-formed block. -/
theorem claim_C6_witness :
    parseLines pyCC "show" 1
      ("3" :: (["no timing here"] ++
        ([""] ++ ["1", "00:00:01,000 --> 00:00:02,000", "Hi"])))
      = parseLines pyCC "show" 1 ["1", "00:00:01,000 --> 00:00:02,000", "Hi"] :=
  claim_C6_missing_timing_discarded pyCC "show" 1 "3" ["no timing here"]
    ["1", "00:00:01,000 --> 00:00:02,000", "Hi"] 3 (by decide) (by decide)
    (by
      intro t ht
      simp only [List.mem_singleton] at ht
      subst ht
      exact ⟨by decide, by decide⟩)

end Easylish
